import Mathlib

/-!
Verification development for the barcode PDF generator
(`barcode_generator.py`).

The program reads a table (CSV) and, for every column, renders the
column's values as Code128 barcode images arranged in a grid on letter
sized PDF pages.  We give a shallow embedding of the layout and
pagination logic:

* page geometry constants become a `Config` record (`defaultConfig`
  holds the values of the Python module: letter paper is 612 x 792
  points, `GRID_START_Y = 792 - 100`, `HEADER_Y = 792 - 80`);
* the external symbology library (`generate_barcode_image`) is an
  abstract encoder `String → Option Img`; `none` models the library
  raising an encoding error for the value;
* the reportlab canvas is modelled by a trace of `DrawOp` operations
  (`drawImage` is tagged with the cell value whose barcode image is
  being drawn);
* the per-column grid loop of `generate_pdf_from_csv` (source lines
  145-176) is `runSection`, which also records a `CellPlacement` for
  every placed value; the column loop (lines 138-178) is `runColumns`
  and `generate_pdf_from_csv`.

All coordinates are rationals, mirroring Python float arithmetic
exactly on the values that occur (the computations are ratios of
integers).
-/

/-- Page geometry constants of the Python module (lines 14-22). -/
structure Config where
  pageWidth : ℚ
  pageHeight : ℚ
  leftMargin : ℚ
  rowHeight : ℚ
  bottomMargin : ℚ
  gridStartY : ℚ
  headerY : ℚ
  deriving Repr, DecidableEq

/-- The concrete constants of the source: letter page (612 x 792),
`LEFT_MARGIN = 40`, `ROW_HEIGHT = 150`, `BOTTOM_MARGIN = 120`,
`GRID_START_Y = PAGE_HEIGHT - 100`, `HEADER_Y = PAGE_HEIGHT - 80`. -/
def defaultConfig : Config where
  pageWidth := 612
  pageHeight := 792
  leftMargin := 40
  rowHeight := 150
  bottomMargin := 120
  gridStartY := 792 - 100
  headerY := 792 - 80

/-- `COLUMNS_PER_ROW = 3` (line 20). -/
def COLUMNS_PER_ROW : ℕ := 3

/-- A rasterized barcode image: width and height in pixels, as
returned by the external symbology capability. -/
structure Img where
  width : ℕ
  height : ℕ
  deriving Repr, DecidableEq

/-- One drawing operation issued to the reportlab canvas.  `drawImage`
carries the cell value whose barcode image is drawn (the image itself
is ephemeral), with lower-left corner `(x, y)`, width `w`, height `h`. -/
inductive DrawOp where
  | setFont (font : String) (size : ℚ)
  | drawCentredString (x y : ℚ) (text : String)
  | drawImage (x y w h : ℚ) (tag : String)
  | showPage
  | save
  deriving Repr, DecidableEq

/-- The error that aborts generation when the symbology rejects a cell
value: it identifies the offending value and the cell (column name and
index of the value inside the column) at which processing stopped. -/
structure EncodingError where
  value : String
  column : String
  index : ℕ
  deriving Repr, DecidableEq

/-- Font size selection of `draw_barcode_on_pdf` (lines 92-99):
a step function of the label length. -/
def fontSizeFor (value : String) : ℕ :=
  if value.length ≤ 15 then 12
  else if value.length ≤ 25 then 10
  else if value.length ≤ 35 then 8
  else 6

/-- `draw_barcode_on_pdf` (lines 72-108): scale the image to width
`MAX_WIDTH = 160` keeping the aspect ratio, draw it with its bottom
edge at `y`, then draw the label centred below the bars with the
selected font size. -/
def draw_barcode_on_pdf (img : Img) (x y : ℚ) (value : String) : List DrawOp :=
  let scale : ℚ := 160 / (img.width : ℚ)
  let final_width : ℚ := 160
  let final_height : ℚ := (img.height : ℚ) * scale
  [DrawOp.drawImage x (y - final_height) final_width final_height value,
   DrawOp.setFont "Helvetica" (fontSizeFor value : ℚ),
   DrawOp.drawCentredString (x + final_width / 2) (y - final_height - 12) value]

/-- `draw_header` (lines 131-135): bold 28pt title centred at the
header position, then reset the font. -/
def draw_header (cfg : Config) (title : String) : List DrawOp :=
  [DrawOp.setFont "Helvetica-Bold" 28,
   DrawOp.drawCentredString (cfg.pageWidth / 2) cfg.headerY title,
   DrawOp.setFont "Helvetica" 12]

/-- Record of one placed value: its logical index `i` in the column,
the value, the `current_row` at the start of the loop iteration
(`rowIn`), whether the overflow check fired (`broke`), and the row,
grid column, coordinates and physical page (0-based within the
section) at which it was actually placed. -/
structure CellPlacement where
  index : ℕ
  value : String
  rowIn : ℕ
  broke : Bool
  row : ℕ
  col : ℕ
  x : ℚ
  y : ℚ
  page : ℕ
  deriving Repr, DecidableEq

/-- Horizontal coordinate of a grid column (line 156). -/
def gridX (cfg : Config) (N : ℕ) (gcol : ℕ) : ℚ :=
  cfg.leftMargin + (gcol : ℚ) * ((cfg.pageWidth - 2 * cfg.leftMargin) / (N : ℚ))

/-- Vertical coordinate of a grid row (line 157). -/
def gridY (cfg : Config) (row : ℕ) : ℚ :=
  cfg.gridStartY - (row : ℚ) * cfg.rowHeight

/-- One iteration of the grid loop (lines 150-166) as a placement
record: compute `grid_col = i % N`, `x`, `y`; if `y < BOTTOM_MARGIN`
reset to the top-left cell of a fresh page, otherwise place at the
computed cell. -/
def mkCell (cfg : Config) (N : ℕ) (i row page : ℕ) (v : String) : CellPlacement :=
  if gridY cfg row < cfg.bottomMargin then
    ⟨i, v, row, true, 0, 0, cfg.leftMargin, cfg.gridStartY, page + 1⟩
  else
    ⟨i, v, row, false, row, i % N, gridX cfg N (i % N), gridY cfg row, page⟩

/-- The `current_row` update after placing a cell (lines 175-176):
increment after filling the last grid column. -/
def nextRow (N : ℕ) (c : CellPlacement) : ℕ :=
  if c.col = N - 1 then c.row + 1 else c.row

/-- Operations emitted by the overflow branch (lines 160-166): a page
break followed by a redrawn section header, or nothing. -/
def breakOps (cfg : Config) (title : String) (c : CellPlacement) : List DrawOp :=
  if c.broke then DrawOp.showPage :: draw_header cfg title else []

/-- Result of processing one column section: the canvas trace, the
placement records, and the encoding error that aborted the section,
if any. -/
structure SectionResult where
  ops : List DrawOp
  cells : List CellPlacement
  err : Option EncodingError
  deriving Repr, DecidableEq

/-- The grid loop of one column section (lines 150-176).  For each
value: possibly break the page, then ask the encoder for the barcode
image (line 169; on failure the section aborts with the break already
drawn, as the Python exception propagates after `showPage`), then draw
the image and label and update `current_row`. -/
def runSection (cfg : Config) (N : ℕ) (enc : String → Option Img) (column : String) :
    List String → ℕ → ℕ → ℕ → SectionResult
  | [], _, _, _ => ⟨[], [], none⟩
  | v :: rest, i, row, page =>
    let c := mkCell cfg N i row page v
    match enc v with
    | none => ⟨breakOps cfg column c, [], some ⟨v, column, i⟩⟩
    | some img =>
      let r := runSection cfg N enc column rest (i + 1) (nextRow N c) c.page
      ⟨breakOps cfg column c ++ draw_barcode_on_pdf img c.x c.y v ++ r.ops,
       c :: r.cells, r.err⟩

/-- The column loop of `generate_pdf_from_csv` (lines 138-176): a
forced `showPage` before every column except the first (`col_idx`),
then the header and the grid loop; an encoding error aborts the whole
run. -/
def runColumns (cfg : Config) (N : ℕ) (enc : String → Option Img) :
    List (String × List String) → ℕ → List DrawOp × Option EncodingError
  | [], _ => ([], none)
  | (column, vals) :: rest, col_idx =>
    let pageOps : List DrawOp := if col_idx ≠ 0 then [DrawOp.showPage] else []
    let s := runSection cfg N enc column vals 0 0 0
    match s.err with
    | some e => (pageOps ++ draw_header cfg column ++ s.ops, some e)
    | none =>
      let r := runColumns cfg N enc rest (col_idx + 1)
      (pageOps ++ draw_header cfg column ++ s.ops ++ r.fst, r.snd)

/-- `generate_pdf_from_csv` (lines 115-178) over an already parsed
table: run all columns and finalize the canvas (`c.save()`, line 178)
only when no encoding error occurred, since the Python exception
propagates before `save` is reached. -/
def generate_pdf_from_csv (cfg : Config) (enc : String → Option Img)
    (columns_per_row : ℕ) (table : List (String × List String)) :
    List DrawOp × Option EncodingError :=
  let r := runColumns cfg columns_per_row enc table 0
  match r.snd with
  | some e => (r.fst, some e)
  | none => (r.fst ++ [DrawOp.save], none)

/-- The full trace of one column section including its header
(line 144 followed by the grid loop). -/
def sectionOps (cfg : Config) (N : ℕ) (enc : String → Option Img)
    (p : String × List String) : List DrawOp :=
  draw_header cfg p.fst ++ (runSection cfg N enc p.fst p.snd 0 0 0).ops

/-- Page assembly of the external canvas: `showPage` ends the current
page, `save` finalizes without adding a page. -/
def splitPages : List DrawOp → List (List DrawOp)
  | [] => [[]]
  | DrawOp.showPage :: rest => [] :: splitPages rest
  | DrawOp.save :: rest => splitPages rest
  | op :: rest =>
    match splitPages rest with
    | [] => [[op]]
    | p :: ps => (op :: p) :: ps

/-- Test for a barcode-image drawing operation. -/
def isImageOp : DrawOp → Bool
  | DrawOp.drawImage _ _ _ _ _ => true
  | _ => false

/-- Test for the finalize operation. -/
def isSaveOp : DrawOp → Bool
  | DrawOp.save => true
  | _ => false

/-- Every page break in the trace is immediately followed by a redrawn
section header `hdr`. -/
def breaksRedrawHeader (hdr : List DrawOp) : List DrawOp → Prop
  | [] => True
  | DrawOp.showPage :: rest => (∃ t, rest = hdr ++ t) ∧ breaksRedrawHeader hdr rest
  | _ :: rest => breaksRedrawHeader hdr rest

/-- An encoder that accepts every value, returning a fixed 2 x 1
pixel image. -/
def encAll : String → Option Img := fun _ => some ⟨2, 1⟩

/-- An encoder that rejects exactly the value `"bad"`. -/
def encBad : String → Option Img := fun v => if v = "bad" then none else some ⟨2, 1⟩

lemma mkCell_index (cfg : Config) (N i row page : ℕ) (v : String) :
    (mkCell cfg N i row page v).index = i := by
  unfold mkCell; split <;> rfl

lemma mkCell_value (cfg : Config) (N i row page : ℕ) (v : String) :
    (mkCell cfg N i row page v).value = v := by
  unfold mkCell; split <;> rfl

lemma mkCell_rowIn (cfg : Config) (N i row page : ℕ) (v : String) :
    (mkCell cfg N i row page v).rowIn = row := by
  unfold mkCell; split <;> rfl

lemma mkCell_broke (cfg : Config) (N i row page : ℕ) (v : String) :
    (mkCell cfg N i row page v).broke = decide (gridY cfg row < cfg.bottomMargin) := by
  unfold mkCell; split <;> simp [*]

lemma mkCell_page (cfg : Config) (N i row page : ℕ) (v : String) :
    (mkCell cfg N i row page v).page =
      if (mkCell cfg N i row page v).broke then page + 1 else page := by
  unfold mkCell; split <;> simp

lemma mkCell_eq_of_lt {cfg : Config} {N i row page : ℕ} {v : String}
    (h : gridY cfg row < cfg.bottomMargin) :
    mkCell cfg N i row page v =
      ⟨i, v, row, true, 0, 0, cfg.leftMargin, cfg.gridStartY, page + 1⟩ := by
  simp [mkCell, h]

lemma mkCell_eq_of_ge {cfg : Config} {N i row page : ℕ} {v : String}
    (h : ¬ gridY cfg row < cfg.bottomMargin) :
    mkCell cfg N i row page v =
      ⟨i, v, row, false, row, i % N, gridX cfg N (i % N), gridY cfg row, page⟩ := by
  simp [mkCell, h]

lemma runSection_nil (cfg : Config) (N : ℕ) (enc : String → Option Img)
    (column : String) (i row page : ℕ) :
    runSection cfg N enc column [] i row page = ⟨[], [], none⟩ := rfl

lemma runSection_cons_none {cfg : Config} {N : ℕ} {enc : String → Option Img}
    {column v : String} {rest : List String} {i row page : ℕ}
    (hv : enc v = none) :
    runSection cfg N enc column (v :: rest) i row page =
      ⟨breakOps cfg column (mkCell cfg N i row page v), [], some ⟨v, column, i⟩⟩ := by
  simp [runSection, hv]

lemma runSection_cons_some {cfg : Config} {N : ℕ} {enc : String → Option Img}
    {column v : String} {rest : List String} {i row page : ℕ} {img : Img}
    (hv : enc v = some img) :
    runSection cfg N enc column (v :: rest) i row page =
      ⟨breakOps cfg column (mkCell cfg N i row page v) ++
         draw_barcode_on_pdf img (mkCell cfg N i row page v).x
           (mkCell cfg N i row page v).y v ++
         (runSection cfg N enc column rest (i + 1)
           (nextRow N (mkCell cfg N i row page v)) (mkCell cfg N i row page v).page).ops,
       mkCell cfg N i row page v ::
         (runSection cfg N enc column rest (i + 1)
           (nextRow N (mkCell cfg N i row page v)) (mkCell cfg N i row page v).page).cells,
       (runSection cfg N enc column rest (i + 1)
         (nextRow N (mkCell cfg N i row page v)) (mkCell cfg N i row page v).page).err⟩ := by
  simp [runSection, hv]

lemma runSection_err_none {cfg : Config} {N : ℕ} {enc : String → Option Img}
    {column : String} (henc : ∀ v, ∃ img, enc v = some img) :
    ∀ (vs : List String) (i row page : ℕ),
      (runSection cfg N enc column vs i row page).err = none := by
  intro vs
  induction vs with
  | nil => intro i row page; rfl
  | cons v rest ih =>
    intro i row page
    obtain ⟨img, hv⟩ := henc v
    rw [runSection_cons_some hv]
    exact ih _ _ _

lemma runSection_values {cfg : Config} {N : ℕ} {enc : String → Option Img}
    {column : String} (henc : ∀ v, ∃ img, enc v = some img) :
    ∀ (vs : List String) (i row page : ℕ),
      (runSection cfg N enc column vs i row page).cells.map (fun c => c.value) = vs := by
  intro vs
  induction vs with
  | nil => intro i row page; rfl
  | cons v rest ih =>
    intro i row page
    obtain ⟨img, hv⟩ := henc v
    rw [runSection_cons_some hv]
    simp [mkCell_value, ih]

lemma runSection_indices {cfg : Config} {N : ℕ} {enc : String → Option Img}
    {column : String} :
    ∀ (vs : List String) (i row page : ℕ),
      (runSection cfg N enc column vs i row page).cells.map (fun c => c.index) =
        List.range' i (runSection cfg N enc column vs i row page).cells.length := by
  intro vs
  induction vs with
  | nil => intro i row page; rfl
  | cons v rest ih =>
    intro i row page
    cases hv : enc v with
    | none => rw [runSection_cons_none hv]; rfl
    | some img =>
      rw [runSection_cons_some hv]
      simp only [List.map_cons, List.length_cons, mkCell_index, List.range'_succ]
      rw [ih]

lemma runSection_cells_shape {cfg : Config} {N : ℕ} {enc : String → Option Img}
    {column : String} :
    ∀ (vs : List String) (i row page : ℕ),
      ∀ c ∈ (runSection cfg N enc column vs i row page).cells,
        ∃ p, c = mkCell cfg N c.index c.rowIn p c.value := by
  intro vs
  induction vs with
  | nil => intro i row page c hc; simp [runSection_nil] at hc
  | cons v rest ih =>
    intro i row page c hc
    cases hv : enc v with
    | none => rw [runSection_cons_none hv] at hc; simp at hc
    | some img =>
      rw [runSection_cons_some hv] at hc
      rcases List.mem_cons.mp hc with h | h
      · refine ⟨page, ?_⟩
        rw [h, mkCell_index, mkCell_rowIn, mkCell_value]
      · exact ih _ _ _ c h

lemma runSection_head_rowIn {cfg : Config} {N : ℕ} {enc : String → Option Img}
    {column : String} :
    ∀ {vs : List String} {i row page : ℕ} {c : CellPlacement},
      (runSection cfg N enc column vs i row page).cells.head? = some c →
        c.rowIn = row := by
  intro vs
  cases vs with
  | nil => intro i row page c hc; simp [runSection_nil] at hc
  | cons v rest =>
    intro i row page c hc
    cases hv : enc v with
    | none => rw [runSection_cons_none hv] at hc; simp at hc
    | some img =>
      rw [runSection_cons_some hv] at hc
      simp only [List.head?_cons, Option.some.injEq] at hc
      rw [← hc, mkCell_rowIn]

lemma runSection_head_page {cfg : Config} {N : ℕ} {enc : String → Option Img}
    {column : String} :
    ∀ {vs : List String} {i row page : ℕ} {c : CellPlacement},
      (runSection cfg N enc column vs i row page).cells.head? = some c →
        c.page = if c.broke then page + 1 else page := by
  intro vs
  cases vs with
  | nil => intro i row page c hc; simp [runSection_nil] at hc
  | cons v rest =>
    intro i row page c hc
    cases hv : enc v with
    | none => rw [runSection_cons_none hv] at hc; simp at hc
    | some img =>
      rw [runSection_cons_some hv] at hc
      simp only [List.head?_cons, Option.some.injEq] at hc
      rw [← hc, mkCell_page]

lemma runSection_chain_row {cfg : Config} {N : ℕ} {enc : String → Option Img}
    {column : String} :
    ∀ (vs : List String) (i row page : ℕ),
      List.Chain' (fun a b => b.rowIn = if a.col = N - 1 then a.row + 1 else a.row)
        (runSection cfg N enc column vs i row page).cells := by
  intro vs
  induction vs with
  | nil => intro i row page; exact List.chain'_nil
  | cons v rest ih =>
    intro i row page
    cases hv : enc v with
    | none => rw [runSection_cons_none hv]; exact List.chain'_nil
    | some img =>
      rw [runSection_cons_some hv]
      refine List.chain'_cons'.mpr ⟨?_, ih _ _ _⟩
      intro b hb
      have := runSection_head_rowIn hb
      rw [this]
      rfl

lemma runSection_chain_page {cfg : Config} {N : ℕ} {enc : String → Option Img}
    {column : String} :
    ∀ (vs : List String) (i row page : ℕ),
      List.Chain' (fun a b => b.page = if b.broke = true then a.page + 1 else a.page)
        (runSection cfg N enc column vs i row page).cells := by
  intro vs
  induction vs with
  | nil => intro i row page; exact List.chain'_nil
  | cons v rest ih =>
    intro i row page
    cases hv : enc v with
    | none => rw [runSection_cons_none hv]; exact List.chain'_nil
    | some img =>
      rw [runSection_cons_some hv]
      refine List.chain'_cons'.mpr ⟨?_, ih _ _ _⟩
      intro b hb
      exact runSection_head_page hb

lemma countP_isImageOp_header (cfg : Config) (column : String) :
    (draw_header cfg column).countP isImageOp = 0 := by
  simp [draw_header, List.countP_cons, isImageOp]

lemma countP_isImageOp_breakOps (cfg : Config) (column : String) (c : CellPlacement) :
    (breakOps cfg column c).countP isImageOp = 0 := by
  cases hb : c.broke <;>
    simp [breakOps, hb, draw_header, List.countP_cons, isImageOp]

lemma countP_isImageOp_barcode (img : Img) (x y : ℚ) (v : String) :
    (draw_barcode_on_pdf img x y v).countP isImageOp = 1 := by
  simp [draw_barcode_on_pdf, List.countP_cons, isImageOp]

lemma runSection_countP_image {cfg : Config} {N : ℕ} {enc : String → Option Img}
    {column : String} (henc : ∀ v, ∃ img, enc v = some img) :
    ∀ (vs : List String) (i row page : ℕ),
      (runSection cfg N enc column vs i row page).ops.countP isImageOp = vs.length := by
  intro vs
  induction vs with
  | nil => intro i row page; rfl
  | cons v rest ih =>
    intro i row page
    obtain ⟨img, hv⟩ := henc v
    rw [runSection_cons_some hv]
    simp only [List.countP_append, List.length_cons]
    rw [countP_isImageOp_breakOps, countP_isImageOp_barcode, ih]
    omega

lemma save_not_mem_header (cfg : Config) (column : String) :
    DrawOp.save ∉ draw_header cfg column := by
  simp [draw_header]

lemma save_not_mem_barcode (img : Img) (x y : ℚ) (v : String) :
    DrawOp.save ∉ draw_barcode_on_pdf img x y v := by
  simp [draw_barcode_on_pdf]

lemma save_not_mem_breakOps (cfg : Config) (column : String) (c : CellPlacement) :
    DrawOp.save ∉ breakOps cfg column c := by
  cases hb : c.broke <;> simp [breakOps, hb, draw_header]

lemma runSection_no_save {cfg : Config} {N : ℕ} {enc : String → Option Img}
    {column : String} :
    ∀ (vs : List String) (i row page : ℕ),
      DrawOp.save ∉ (runSection cfg N enc column vs i row page).ops := by
  intro vs
  induction vs with
  | nil => intro i row page; simp [runSection_nil]
  | cons v rest ih =>
    intro i row page
    cases hv : enc v with
    | none =>
      rw [runSection_cons_none hv]
      exact save_not_mem_breakOps _ _ _
    | some img =>
      rw [runSection_cons_some hv]
      simp only [List.mem_append, not_or]
      exact ⟨⟨save_not_mem_breakOps _ _ _, save_not_mem_barcode _ _ _ _⟩, ih _ _ _⟩

lemma imageTag_mem_barcode {x y w h : ℚ} {t : String} {img : Img} {x' y' : ℚ}
    {v : String} (hm : DrawOp.drawImage x y w h t ∈ draw_barcode_on_pdf img x' y' v) :
    t = v := by
  simp [draw_barcode_on_pdf] at hm
  obtain ⟨-, -, -, -, h5⟩ := hm
  exact h5

lemma imageTag_not_mem_header {x y w h : ℚ} {t : String} (cfg : Config)
    (column : String) : DrawOp.drawImage x y w h t ∉ draw_header cfg column := by
  simp [draw_header]

lemma imageTag_not_mem_breakOps {x y w h : ℚ} {t : String} (cfg : Config)
    (column : String) (c : CellPlacement) :
    DrawOp.drawImage x y w h t ∉ breakOps cfg column c := by
  cases hb : c.broke <;> simp [breakOps, hb, draw_header]

lemma runSection_image_tag {cfg : Config} {N : ℕ} {enc : String → Option Img}
    {column : String} :
    ∀ (vs : List String) (i row page : ℕ) {x y w h : ℚ} {t : String},
      DrawOp.drawImage x y w h t ∈ (runSection cfg N enc column vs i row page).ops →
        ∃ img, enc t = some img := by
  intro vs
  induction vs with
  | nil => intro i row page x y w h t hm; simp [runSection_nil] at hm
  | cons v rest ih =>
    intro i row page x y w h t hm
    cases hv : enc v with
    | none =>
      rw [runSection_cons_none hv] at hm
      exact absurd hm (imageTag_not_mem_breakOps _ _ _)
    | some img =>
      rw [runSection_cons_some hv] at hm
      simp only [List.mem_append] at hm
      rcases hm with (hm | hm) | hm
      · exact absurd hm (imageTag_not_mem_breakOps _ _ _)
      · exact ⟨img, by rw [imageTag_mem_barcode hm]; exact hv⟩
      · exact ih _ _ _ hm

lemma runSection_err_isSome {cfg : Config} {N : ℕ} {enc : String → Option Img}
    {column : String} :
    ∀ (vs : List String) (i row page : ℕ),
      (∃ v, v ∈ vs ∧ enc v = none) →
        ((runSection cfg N enc column vs i row page).err).isSome = true := by
  intro vs
  induction vs with
  | nil => intro i row page h; obtain ⟨v, hv, -⟩ := h; simp at hv
  | cons v rest ih =>
    intro i row page h
    cases hv : enc v with
    | none => rw [runSection_cons_none hv]; rfl
    | some img =>
      rw [runSection_cons_some hv]
      obtain ⟨u, hu, hen⟩ := h
      rcases List.mem_cons.mp hu with h | h
      · rw [h] at hen; rw [hv] at hen; cases hen
      · exact ih _ _ _ ⟨u, h, hen⟩

lemma runSection_err_spec {cfg : Config} {N : ℕ} {enc : String → Option Img}
    {column : String} :
    ∀ (vs : List String) (i row page : ℕ) {e : EncodingError},
      (runSection cfg N enc column vs i row page).err = some e →
        enc e.value = none ∧ e.column = column ∧
          ∃ k, vs.get? k = some e.value ∧ e.index = i + k := by
  intro vs
  induction vs with
  | nil => intro i row page e he; simp [runSection_nil] at he
  | cons v rest ih =>
    intro i row page e he
    cases hv : enc v with
    | none =>
      rw [runSection_cons_none hv] at he
      simp only [Option.some.injEq] at he
      refine ⟨?_, ?_, 0, ?_, ?_⟩ <;> rw [← he] <;> simp [hv]
    | some img =>
      rw [runSection_cons_some hv] at he
      obtain ⟨h1, h2, k, hk, hi⟩ := ih _ _ _ he
      exact ⟨h1, h2, k + 1, by simpa using hk, by omega⟩

lemma chain'_pairwise {α : Type} {R : α → α → Prop}
    (ht : ∀ a b c, R a b → R b c → R a c) :
    ∀ {l : List α}, List.Chain' R l → List.Pairwise R l := by
  intro l
  induction l with
  | nil => intro h; exact List.Pairwise.nil
  | cons a l ih =>
    intro h
    obtain ⟨hhead, htail⟩ := List.chain'_cons'.mp h
    have hp := ih htail
    refine List.Pairwise.cons ?_ hp
    intro x hx
    cases l with
    | nil => simp at hx
    | cons b l' =>
      have hab : R a b := hhead b rfl
      rcases List.mem_cons.mp hx with h | h
      · rw [h]; exact hab
      · exact ht _ _ _ hab (List.rel_of_pairwise_cons hp h)

lemma runSection_pairwise_page {cfg : Config} {N : ℕ} {enc : String → Option Img}
    {column : String} (vs : List String) (i row page : ℕ) :
    List.Pairwise (fun a b => a.page ≤ b.page ∧ (b.broke = true → a.page < b.page))
      (runSection cfg N enc column vs i row page).cells := by
  refine chain'_pairwise ?_ (List.Chain'.imp ?_ (runSection_chain_page vs i row page))
  · rintro a b c ⟨hab, hab'⟩ ⟨hbc, hbc'⟩
    exact ⟨le_trans hab hbc, fun hb => lt_of_le_of_lt hab (hbc' hb)⟩
  · intro a b hr
    cases hb : b.broke with
    | true =>
      rw [hb] at hr
      simp at hr
      exact ⟨by omega, fun _ => by omega⟩
    | false =>
      rw [hb] at hr
      simp only [Bool.false_eq_true, if_false] at hr
      exact ⟨le_of_eq hr.symm, fun h => by cases h⟩

lemma brh_cons_not_show {hdr l : List DrawOp} {op : DrawOp}
    (h : op ≠ DrawOp.showPage) :
    breaksRedrawHeader hdr (op :: l) ↔ breaksRedrawHeader hdr l := by
  cases op <;> first | exact absurd rfl h | exact Iff.rfl

lemma brh_append_not_show {hdr : List DrawOp} :
    ∀ {a l : List DrawOp}, DrawOp.showPage ∉ a →
      (breaksRedrawHeader hdr (a ++ l) ↔ breaksRedrawHeader hdr l) := by
  intro a
  induction a with
  | nil => intro l h; exact Iff.rfl
  | cons op a' ih =>
    intro l h
    have hop : op ≠ DrawOp.showPage := by
      intro he
      exact h (by rw [← he]; exact List.mem_cons_self _ _)
    rw [List.cons_append, brh_cons_not_show hop]
    exact ih (fun hm => h (List.mem_cons_of_mem _ hm))

lemma brh_show_cons {hdr rest : List DrawOp} :
    breaksRedrawHeader hdr (DrawOp.showPage :: rest) ↔
      (∃ t, rest = hdr ++ t) ∧ breaksRedrawHeader hdr rest := Iff.rfl

lemma show_not_mem_header (cfg : Config) (column : String) :
    DrawOp.showPage ∉ draw_header cfg column := by
  simp [draw_header]

lemma show_not_mem_barcode (img : Img) (x y : ℚ) (v : String) :
    DrawOp.showPage ∉ draw_barcode_on_pdf img x y v := by
  simp [draw_barcode_on_pdf]

lemma brh_header_append {cfg : Config} {column : String} {l : List DrawOp}
    (hl : breaksRedrawHeader (draw_header cfg column) l) :
    breaksRedrawHeader (draw_header cfg column) (draw_header cfg column ++ l) :=
  (brh_append_not_show (show_not_mem_header _ _)).mpr hl

lemma runSection_breaks_header {cfg : Config} {N : ℕ} {enc : String → Option Img}
    {column : String} :
    ∀ (vs : List String) (i row page : ℕ),
      breaksRedrawHeader (draw_header cfg column)
        (runSection cfg N enc column vs i row page).ops := by
  intro vs
  induction vs with
  | nil => intro i row page; exact trivial
  | cons v rest ih =>
    intro i row page
    cases hv : enc v with
    | none =>
      rw [runSection_cons_none hv]
      show breaksRedrawHeader _ (breakOps _ _ _)
      cases hb : (mkCell cfg N i row page v).broke with
      | false => simp only [breakOps, hb, Bool.false_eq_true, if_false]; exact trivial
      | true =>
        simp only [breakOps, hb, if_true]
        rw [brh_show_cons]
        refine ⟨⟨[], (List.append_nil _).symm⟩, ?_⟩
        have : breaksRedrawHeader (draw_header cfg column)
            (draw_header cfg column ++ ([] : List DrawOp)) :=
          brh_header_append trivial
        simpa using this
    | some img =>
      rw [runSection_cons_some hv]
      cases hb : (mkCell cfg N i row page v).broke with
      | false =>
        simp only [breakOps, hb, Bool.false_eq_true, if_false, List.nil_append]
        exact (brh_append_not_show (show_not_mem_barcode _ _ _ _)).mpr (ih _ _ _)
      | true =>
        simp only [breakOps, hb, if_true, List.cons_append, List.append_assoc]
        rw [brh_show_cons]
        refine ⟨⟨_, rfl⟩, ?_⟩
        exact brh_header_append
          ((brh_append_not_show (show_not_mem_barcode _ _ _ _)).mpr (ih _ _ _))

/-- C1: the grid paginator places every value of a column exactly once
and in logical index order (the placed values are the value list
itself, the placed indices are `0, 1, 2, ...`, and the number of
image-drawing operations equals the number of values); page numbers
never decrease along the placement sequence, a placement that broke
the page is on a strictly later page than every earlier placement
(so the value that triggered the overflow check is the first value
drawn on the new page), and a placement that did not break stays on
its predecessor's page — no value is skipped or drawn twice. -/
theorem grid_paginator_complete (cfg : Config) (N : ℕ) (enc : String → Option Img)
    (column : String) (values : List String)
    (henc : ∀ v, ∃ img, enc v = some img) :
    ((runSection cfg N enc column values 0 0 0).cells.map (fun c => c.value) = values) ∧
    ((runSection cfg N enc column values 0 0 0).cells.map (fun c => c.index) =
      List.range values.length) ∧
    ((runSection cfg N enc column values 0 0 0).ops.countP isImageOp = values.length) ∧
    List.Chain' (fun a b => b.page = if b.broke = true then a.page + 1 else a.page)
      (runSection cfg N enc column values 0 0 0).cells ∧
    List.Pairwise (fun a b => a.page ≤ b.page ∧ (b.broke = true → a.page < b.page))
      (runSection cfg N enc column values 0 0 0).cells := by
  refine ⟨runSection_values henc values 0 0 0, ?_,
    runSection_countP_image henc values 0 0 0,
    runSection_chain_page values 0 0 0, runSection_pairwise_page values 0 0 0⟩
  have hlen : (runSection cfg N enc column values 0 0 0).cells.length = values.length := by
    have h := congrArg List.length (@runSection_values cfg N enc column henc values 0 0 0)
    simpa using h
  rw [runSection_indices values 0 0 0, hlen]
  exact (List.range_eq_range' _).symm

/-- Witness for `grid_paginator_complete`: a 13-value column (which
overflows once) at the default configuration. -/
theorem grid_paginator_complete_witness :
    (runSection defaultConfig 3 encAll "Items" (List.replicate 13 "v") 0 0 0).cells.map
      (fun c => c.value) = List.replicate 13 "v" :=
  (grid_paginator_complete defaultConfig 3 encAll "Items" (List.replicate 13 "v")
    (fun _ => ⟨⟨2, 1⟩, rfl⟩)).1

/-- C2: the overflow check compares the y coordinate computed from the
incoming `current_row` with `BOTTOM_MARGIN` before the value is
placed (`broke` is exactly that comparison); when it fires, the value
is placed at row 0, column 0, `x = LEFT_MARGIN`, `y = GRID_START_Y`
of a fresh page; every page break in the trace is immediately
followed by a redrawn section header; with the configured constants
(`ROW_HEIGHT = 150`, `BOTTOM_MARGIN = 120`, `GRID_START_Y = 692`) the
rows whose computed y falls below the bottom margin are exactly the
rows from 4 on; and in a 13-value column the first cell of row 4
(logical index 12) starts page 1 of the section with the triggering
value placed first at the top-left cell. -/
theorem overflow_check_before_placement (cfg : Config) (N : ℕ)
    (enc : String → Option Img) (column : String) (values : List String) :
    (∀ c ∈ (runSection cfg N enc column values 0 0 0).cells,
        c.broke = decide (cfg.gridStartY - (c.rowIn : ℚ) * cfg.rowHeight <
          cfg.bottomMargin) ∧
        (c.broke = true →
          c.row = 0 ∧ c.col = 0 ∧ c.x = cfg.leftMargin ∧ c.y = cfg.gridStartY)) ∧
    breaksRedrawHeader (draw_header cfg column)
      (runSection cfg N enc column values 0 0 0).ops ∧
    (∀ r : ℕ, defaultConfig.gridStartY - (r : ℚ) * defaultConfig.rowHeight <
        defaultConfig.bottomMargin ↔ 4 ≤ r) ∧
    (runSection defaultConfig 3 encAll "Items" (List.replicate 13 "v") 0 0 0).cells.get? 12 =
      some ⟨12, "v", 4, true, 0, 0, 40, 692, 1⟩ := by
  refine ⟨?_, runSection_breaks_header values 0 0 0, ?_, by
    norm_num [runSection, mkCell, gridY, gridX, nextRow, encAll, defaultConfig,
      List.replicate]⟩
  · intro c hc
    obtain ⟨p, hp⟩ := runSection_cells_shape values 0 0 0 c hc
    constructor
    · conv_lhs => rw [hp]
      rw [mkCell_broke]
      simp [gridY]
    · intro hb
      have hlt : gridY cfg c.rowIn < cfg.bottomMargin := by
        rw [hp, mkCell_broke] at hb
        exact of_decide_eq_true hb
      rw [hp, mkCell_eq_of_lt hlt]
      exact ⟨rfl, rfl, rfl, rfl⟩
  · intro r
    simp only [defaultConfig]
    constructor
    · intro h
      by_contra hr
      push_neg at hr
      have hr3 : (r : ℚ) ≤ 3 := by exact_mod_cast Nat.lt_succ_iff.mp hr
      nlinarith
    · intro h
      have h4 : (4 : ℚ) ≤ (r : ℚ) := by exact_mod_cast h
      nlinarith

/-- C3: a value placed without a page break sits at grid column
`i mod N` with `x = LEFT_MARGIN + (i mod N) * ((PAGE_WIDTH -
2 * LEFT_MARGIN) / N)` and `y = GRID_START_Y - current_row *
ROW_HEIGHT`; for `columns_per_row = 3` and 7 values with no overflow
the (row, col) sequence is (0,0),(0,1),(0,2),(1,0),(1,1),(1,2),(2,0). -/
theorem cell_coordinate_formula (cfg : Config) (N : ℕ) (enc : String → Option Img)
    (column : String) (values : List String) :
    (∀ c ∈ (runSection cfg N enc column values 0 0 0).cells, c.broke = false →
        c.col = c.index % N ∧
        c.x = cfg.leftMargin + ((c.index % N : ℕ) : ℚ) *
          ((cfg.pageWidth - 2 * cfg.leftMargin) / (N : ℚ)) ∧
        c.row = c.rowIn ∧
        c.y = cfg.gridStartY - (c.rowIn : ℚ) * cfg.rowHeight) ∧
    ((runSection defaultConfig 3 encAll "Items" (List.replicate 7 "v") 0 0 0).cells.map
      (fun c => (c.row, c.col)) =
      [(0, 0), (0, 1), (0, 2), (1, 0), (1, 1), (1, 2), (2, 0)]) := by
  refine ⟨?_, by
    norm_num [runSection, mkCell, gridY, gridX, nextRow, encAll, defaultConfig,
      List.replicate]⟩
  intro c hc hb
  obtain ⟨p, hp⟩ := runSection_cells_shape values 0 0 0 c hc
  have hge : ¬ gridY cfg c.rowIn < cfg.bottomMargin := by
    rw [hp, mkCell_broke] at hb
    exact of_decide_eq_false hb
  rw [hp, mkCell_eq_of_ge hge]
  exact ⟨rfl, rfl, rfl, rfl⟩

/-- C4: between consecutive placements, `current_row` is incremented
exactly when the earlier value was placed in the last grid column
(`col = N - 1`), and is otherwise unchanged — the rule applies whether
or not a page break occurred for that value (after a break the check
uses the reset column and the reset row 0). -/
theorem row_increment_rule (cfg : Config) (N : ℕ) (enc : String → Option Img)
    (column : String) (values : List String) :
    List.Chain' (fun a b => b.rowIn = if a.col = N - 1 then a.row + 1 else a.row)
      (runSection cfg N enc column values 0 0 0).cells :=
  runSection_chain_row values 0 0 0

lemma isSaveOp_eq {op : DrawOp} : isSaveOp op = true ↔ op = DrawOp.save := by
  cases op <;> simp [isSaveOp]

lemma runSection_countP_save {cfg : Config} {N : ℕ} {enc : String → Option Img}
    {column : String} (vs : List String) (i row page : ℕ) :
    ((runSection cfg N enc column vs i row page).ops).countP isSaveOp = 0 := by
  rw [List.countP_eq_zero]
  intro a ha hs
  exact runSection_no_save vs i row page (isSaveOp_eq.mp hs ▸ ha)

lemma runColumns_nil (cfg : Config) (N : ℕ) (enc : String → Option Img) (k : ℕ) :
    runColumns cfg N enc [] k = ([], none) := rfl

lemma runColumns_cons_err {cfg : Config} {N : ℕ} {enc : String → Option Img}
    {column : String} {vals : List String} {rest : List (String × List String)}
    {k : ℕ} {e : EncodingError}
    (he : (runSection cfg N enc column vals 0 0 0).err = some e) :
    runColumns cfg N enc ((column, vals) :: rest) k =
      ((if k ≠ 0 then [DrawOp.showPage] else []) ++ draw_header cfg column ++
        (runSection cfg N enc column vals 0 0 0).ops, some e) := by
  simp [runColumns, he]

lemma runColumns_cons_ok {cfg : Config} {N : ℕ} {enc : String → Option Img}
    {column : String} {vals : List String} {rest : List (String × List String)}
    {k : ℕ} (he : (runSection cfg N enc column vals 0 0 0).err = none) :
    runColumns cfg N enc ((column, vals) :: rest) k =
      ((if k ≠ 0 then [DrawOp.showPage] else []) ++ draw_header cfg column ++
        (runSection cfg N enc column vals 0 0 0).ops ++
        (runColumns cfg N enc rest (k + 1)).fst,
       (runColumns cfg N enc rest (k + 1)).snd) := by
  simp [runColumns, he]

lemma intercalate_eq_cons {α : Type} (sep : List α) :
    ∀ (x : List α) (xs : List (List α)),
      List.intercalate sep (x :: xs) = x ++ (xs.map (fun t => sep ++ t)).flatten := by
  intro x xs
  induction xs generalizing x with
  | nil => simp [List.intercalate]
  | cons y ys ih =>
    show (List.intersperse sep (x :: y :: ys)).flatten = _
    rw [List.intersperse_cons₂, List.flatten_cons, List.flatten_cons]
    have hy := ih y
    simp only [List.intercalate] at hy
    rw [hy, List.map_cons, List.flatten_cons]
    simp [List.append_assoc]

lemma runColumns_pos {cfg : Config} {N : ℕ} {enc : String → Option Img}
    (henc : ∀ v, ∃ img, enc v = some img) :
    ∀ (table : List (String × List String)) (k : ℕ), k ≠ 0 →
      runColumns cfg N enc table k =
        ((table.map (fun p => DrawOp.showPage :: sectionOps cfg N enc p)).flatten,
         none) := by
  intro table
  induction table with
  | nil => intro k hk; rfl
  | cons p rest ih =>
    intro k hk
    obtain ⟨column, vals⟩ := p
    rw [runColumns_cons_ok (runSection_err_none henc vals 0 0 0), ih (k + 1) (by omega)]
    simp [sectionOps, hk, List.append_assoc]

lemma runColumns_zero {cfg : Config} {N : ℕ} {enc : String → Option Img}
    (henc : ∀ v, ∃ img, enc v = some img) (table : List (String × List String)) :
    runColumns cfg N enc table 0 =
      (List.intercalate [DrawOp.showPage] (table.map (sectionOps cfg N enc)), none) := by
  cases table with
  | nil => rfl
  | cons p rest =>
    obtain ⟨column, vals⟩ := p
    rw [runColumns_cons_ok (runSection_err_none henc vals 0 0 0),
      runColumns_pos henc rest 1 (by omega), List.map_cons, intercalate_eq_cons]
    simp [sectionOps, List.map_map, List.append_assoc, Function.comp_def]

lemma runColumns_countP_save {cfg : Config} {N : ℕ} {enc : String → Option Img} :
    ∀ (table : List (String × List String)) (k : ℕ),
      ((runColumns cfg N enc table k).fst).countP isSaveOp = 0 := by
  intro table
  induction table with
  | nil => intro k; rfl
  | cons p rest ih =>
    intro k
    obtain ⟨column, vals⟩ := p
    have hpage : ((if k ≠ 0 then [DrawOp.showPage] else []) : List DrawOp).countP
        isSaveOp = 0 := by
      by_cases hk : k ≠ 0 <;> simp [hk, isSaveOp]
    have hhd : (draw_header cfg column).countP isSaveOp = 0 := by
      simp [draw_header, List.countP_cons, isSaveOp]
    cases herr : (runSection cfg N enc column vals 0 0 0).err with
    | some e =>
      rw [runColumns_cons_err herr]
      simp only [List.countP_append]
      rw [hpage, hhd, runSection_countP_save]
    | none =>
      rw [runColumns_cons_ok herr]
      simp only [List.countP_append]
      rw [hpage, hhd, runSection_countP_save, ih]

lemma runColumns_no_save {cfg : Config} {N : ℕ} {enc : String → Option Img} :
    ∀ (table : List (String × List String)) (k : ℕ),
      DrawOp.save ∉ (runColumns cfg N enc table k).fst := by
  intro table
  induction table with
  | nil => intro k; simp [runColumns_nil]
  | cons p rest ih =>
    intro k
    obtain ⟨column, vals⟩ := p
    have hpage : DrawOp.save ∉ ((if k ≠ 0 then [DrawOp.showPage] else []) :
        List DrawOp) := by
      by_cases hk : k ≠ 0 <;> simp [hk]
    cases herr : (runSection cfg N enc column vals 0 0 0).err with
    | some e =>
      rw [runColumns_cons_err herr]
      simp only [List.mem_append, not_or]
      exact ⟨⟨hpage, save_not_mem_header _ _⟩, runSection_no_save _ _ _ _⟩
    | none =>
      rw [runColumns_cons_ok herr]
      simp only [List.mem_append, not_or]
      exact ⟨⟨⟨hpage, save_not_mem_header _ _⟩, runSection_no_save _ _ _ _⟩, ih _⟩

lemma runColumns_image_tag {cfg : Config} {N : ℕ} {enc : String → Option Img} :
    ∀ (table : List (String × List String)) (k : ℕ) {x y w h : ℚ} {t : String},
      DrawOp.drawImage x y w h t ∈ (runColumns cfg N enc table k).fst →
        ∃ img, enc t = some img := by
  intro table
  induction table with
  | nil => intro k x y w h t hm; simp [runColumns_nil] at hm
  | cons p rest ih =>
    intro k x y w h t hm
    obtain ⟨column, vals⟩ := p
    have hpage : DrawOp.drawImage x y w h t ∉
        ((if k ≠ 0 then [DrawOp.showPage] else []) : List DrawOp) := by
      by_cases hk : k ≠ 0 <;> simp [hk]
    cases herr : (runSection cfg N enc column vals 0 0 0).err with
    | some e =>
      rw [runColumns_cons_err herr] at hm
      simp only [List.mem_append] at hm
      rcases hm with (hm | hm) | hm
      · exact absurd hm hpage
      · exact absurd hm (imageTag_not_mem_header _ _)
      · exact runSection_image_tag vals 0 0 0 hm
    | none =>
      rw [runColumns_cons_ok herr] at hm
      simp only [List.mem_append] at hm
      rcases hm with ((hm | hm) | hm) | hm
      · exact absurd hm hpage
      · exact absurd hm (imageTag_not_mem_header _ _)
      · exact runSection_image_tag vals 0 0 0 hm
      · exact ih _ hm

lemma runColumns_err_isSome {cfg : Config} {N : ℕ} {enc : String → Option Img} :
    ∀ (table : List (String × List String)) (k : ℕ),
      (∃ p, p ∈ table ∧ ∃ v, v ∈ p.snd ∧ enc v = none) →
        ((runColumns cfg N enc table k).snd).isSome = true := by
  intro table
  induction table with
  | nil => intro k h; obtain ⟨p, hp, -⟩ := h; simp at hp
  | cons q rest ih =>
    intro k h
    obtain ⟨p, hp, v, hv, hen⟩ := h
    obtain ⟨column, vals⟩ := q
    cases herr : (runSection cfg N enc column vals 0 0 0).err with
    | some e => rw [runColumns_cons_err herr]; rfl
    | none =>
      rw [runColumns_cons_ok herr]
      rcases List.mem_cons.mp hp with hph | hph
      · exfalso
        rw [hph] at hv
        have hs := @runSection_err_isSome cfg N enc column vals 0 0 0 ⟨v, hv, hen⟩
        rw [herr] at hs
        cases hs
      · exact ih (k + 1) ⟨p, hph, v, hv, hen⟩

lemma runColumns_err_spec {cfg : Config} {N : ℕ} {enc : String → Option Img} :
    ∀ (table : List (String × List String)) (k : ℕ) {e : EncodingError},
      (runColumns cfg N enc table k).snd = some e →
        enc e.value = none ∧
          ∃ p, p ∈ table ∧ p.fst = e.column ∧ p.snd.get? e.index = some e.value := by
  intro table
  induction table with
  | nil => intro k e h; simp [runColumns_nil] at h
  | cons q rest ih =>
    intro k e h
    obtain ⟨column, vals⟩ := q
    cases herr : (runSection cfg N enc column vals 0 0 0).err with
    | some e' =>
      rw [runColumns_cons_err herr] at h
      simp only [Option.some.injEq] at h
      rw [← h]
      obtain ⟨h1, h2, k', hk', hi⟩ := runSection_err_spec vals 0 0 0 herr
      refine ⟨h1, (column, vals), List.mem_cons_self _ _, h2.symm, ?_⟩
      rw [hi]
      simpa using hk'
    | none =>
      rw [runColumns_cons_ok herr] at h
      obtain ⟨h1, p, hp, h2, h3⟩ := ih (k + 1) h
      exact ⟨h1, p, List.mem_cons_of_mem _ hp, h2, h3⟩

/-- C6: the label font size is a pure total step function of the label
length: length at most 15 gives size 12, 16-25 gives 10, 26-35 gives
8, longer gives 6; the boundary lengths 15, 16, 25, 26, 35, 36 map to
12, 10, 10, 8, 8, 6. -/
theorem label_font_size_step (s : String) :
    (s.length ≤ 15 → fontSizeFor s = 12) ∧
    (16 ≤ s.length → s.length ≤ 25 → fontSizeFor s = 10) ∧
    (26 ≤ s.length → s.length ≤ 35 → fontSizeFor s = 8) ∧
    (36 ≤ s.length → fontSizeFor s = 6) ∧
    fontSizeFor (String.mk (List.replicate 15 'a')) = 12 ∧
    fontSizeFor (String.mk (List.replicate 16 'a')) = 10 ∧
    fontSizeFor (String.mk (List.replicate 25 'a')) = 10 ∧
    fontSizeFor (String.mk (List.replicate 26 'a')) = 8 ∧
    fontSizeFor (String.mk (List.replicate 35 'a')) = 8 ∧
    fontSizeFor (String.mk (List.replicate 36 'a')) = 6 := by
  refine ⟨fun h => by simp [fontSizeFor, h], fun h1 h2 => ?_, fun h1 h2 => ?_,
    fun h => ?_, by decide, by decide, by decide, by decide, by decide, by decide⟩
  · unfold fontSizeFor
    rw [if_neg (by omega), if_pos h2]
  · unfold fontSizeFor
    rw [if_neg (by omega), if_neg (by omega), if_pos h2]
  · unfold fontSizeFor
    rw [if_neg (by omega), if_neg (by omega), if_neg (by omega)]

/-- Witness for `label_font_size_step` at concrete labels of length 3
and 20. -/
theorem label_font_size_step_witness :
    fontSizeFor "abc" = 12 ∧ fontSizeFor (String.mk (List.replicate 20 'a')) = 10 :=
  ⟨(label_font_size_step "abc").1 (by decide),
   (label_font_size_step (String.mk (List.replicate 20 'a'))).2.1 (by decide) (by decide)⟩

/-- C5: the cell placer scales the image to display width 160
preserving the aspect ratio (`fh * width = 160 * height`), draws the
image with vertical span from `y - fh` to `y` and horizontal span from
`x` to `x + 160`, and draws the label as a separate text operation
centred at `x + 160 / 2`, at height `y - fh - 12`, in the Label
Sizer's font size for the label. -/
theorem cell_placer_draw_ops (img : Img) (x y : ℚ) (value : String)
    (hw : 0 < img.width) :
    ∃ fh : ℚ,
      draw_barcode_on_pdf img x y value =
        [DrawOp.drawImage x (y - fh) 160 fh value,
         DrawOp.setFont "Helvetica" (fontSizeFor value : ℚ),
         DrawOp.drawCentredString (x + 160 / 2) (y - fh - 12) value] ∧
      fh * (img.width : ℚ) = 160 * (img.height : ℚ) := by
  refine ⟨(img.height : ℚ) * (160 / (img.width : ℚ)), rfl, ?_⟩
  have hw' : (img.width : ℚ) ≠ 0 := by
    exact_mod_cast Nat.pos_iff_ne_zero.mp hw
  field_simp
  ring

/-- Witness for `cell_placer_draw_ops` at a 2 x 1 image anchored at
the origin. -/
theorem cell_placer_draw_ops_witness :
    ∃ fh : ℚ,
      draw_barcode_on_pdf ⟨2, 1⟩ 0 0 "a" =
        [DrawOp.drawImage 0 (0 - fh) 160 fh "a",
         DrawOp.setFont "Helvetica" (fontSizeFor "a" : ℚ),
         DrawOp.drawCentredString (0 + 160 / 2) (0 - fh - 12) "a"] ∧
      fh * ((Img.mk 2 1).width : ℚ) = 160 * ((Img.mk 2 1).height : ℚ) :=
  cell_placer_draw_ops ⟨2, 1⟩ 0 0 "a" (by decide)

lemma runSection_broke_mod {cfg : Config} {N : ℕ} {enc : String → Option Img}
    {column : String} (hN : 1 ≤ N) (hg : cfg.bottomMargin ≤ cfg.gridStartY) :
    ∀ (vs : List String) (i row page : ℕ),
      (i % N ≠ 0 → cfg.bottomMargin ≤ gridY cfg row) →
      ∀ c ∈ (runSection cfg N enc column vs i row page).cells,
        c.broke = true → c.index % N = 0 := by
  intro vs
  induction vs with
  | nil => intro i row page hinv c hc; simp [runSection_nil] at hc
  | cons v rest ih =>
    intro i row page hinv c hc hbroke
    cases hv : enc v with
    | none => rw [runSection_cons_none hv] at hc; simp at hc
    | some img =>
      rw [runSection_cons_some hv] at hc
      rcases List.mem_cons.mp hc with h | h
      · rw [h, mkCell_index]
        rw [h, mkCell_broke] at hbroke
        have hlt : gridY cfg row < cfg.bottomMargin := of_decide_eq_true hbroke
        by_contra hne
        exact absurd hlt (not_lt.mpr (hinv hne))
      · refine ih (i + 1) (nextRow N (mkCell cfg N i row page v))
          (mkCell cfg N i row page v).page ?_ c h hbroke
        intro h1
        by_cases hbr : gridY cfg row < cfg.bottomMargin
        · rw [mkCell_eq_of_lt hbr]
          rcases Nat.lt_or_ge N 2 with hN2 | hN2
          · exfalso
            apply h1
            have hone : N = 1 := by omega
            rw [hone, Nat.mod_one]
          · have hne1 : ¬ (0 : ℕ) = N - 1 := by omega
            simp only [nextRow, hne1, if_false]
            simpa [gridY] using hg
        · have hcol : i % N ≠ N - 1 := by
            intro hEq
            apply h1
            rcases Nat.lt_or_ge N 2 with hN2 | hN2
            · have hone : N = 1 := by omega
              rw [hone, Nat.mod_one]
            · rw [Nat.add_mod, hEq, Nat.mod_eq_of_lt (show 1 < N by omega)]
              have hsub : N - 1 + 1 = N := by omega
              rw [hsub, Nat.mod_self]
          rw [mkCell_eq_of_ge hbr]
          simp only [nextRow, hcol, if_false]
          exact not_lt.mp hbr

/-- C10: in every column section with at least one grid column and
`GRID_START_Y` at or above `BOTTOM_MARGIN`, the overflow check can
fire only for a value whose logical index is a multiple of
`columns_per_row` (the first cell of a grid row), because
`current_row` only advances after the last column of a row; hence the
code's reset of the grid column to 0 and of `x` to `LEFT_MARGIN` on a
page break coincides with recomputing `grid_column = i mod N` and the
`x` formula for that value. -/
theorem break_only_at_row_start (cfg : Config) (N : ℕ) (enc : String → Option Img)
    (column : String) (values : List String) (hN : 1 ≤ N)
    (hg : cfg.bottomMargin ≤ cfg.gridStartY) :
    ∀ c ∈ (runSection cfg N enc column values 0 0 0).cells, c.broke = true →
      c.index % N = 0 ∧ c.col = c.index % N ∧
      c.x = cfg.leftMargin + ((c.index % N : ℕ) : ℚ) *
        ((cfg.pageWidth - 2 * cfg.leftMargin) / (N : ℚ)) := by
  intro c hc hbroke
  have hmod : c.index % N = 0 := by
    refine runSection_broke_mod hN hg values 0 0 0 ?_ c hc hbroke
    intro h0
    exact absurd (Nat.zero_mod N) h0
  obtain ⟨p, hp⟩ := runSection_cells_shape values 0 0 0 c hc
  have hlt : gridY cfg c.rowIn < cfg.bottomMargin := by
    rw [hp, mkCell_broke] at hbroke
    exact of_decide_eq_true hbroke
  refine ⟨hmod, ?_, ?_⟩
  · rw [hp, mkCell_eq_of_lt hlt]
    simp [hmod]
  · rw [hp, mkCell_eq_of_lt hlt]
    simp [hmod]

/-- Witness for `break_only_at_row_start`: the placement of logical
index 12 in a 13-value column at the default configuration (the cell
that opens page 1 of the section). -/
theorem break_only_at_row_start_witness :
    (12 : ℕ) % 3 = 0 ∧ (0 : ℕ) = 12 % 3 ∧
    (40 : ℚ) = defaultConfig.leftMargin + ((12 % 3 : ℕ) : ℚ) *
      ((defaultConfig.pageWidth - 2 * defaultConfig.leftMargin) / (3 : ℚ)) :=
  break_only_at_row_start defaultConfig 3 encAll "Items" (List.replicate 13 "v")
    (by decide) (by norm_num [defaultConfig])
    ⟨12, "v", 4, true, 0, 0, 40, 692, 1⟩
    (by norm_num [runSection, mkCell, gridY, gridX, nextRow, encAll, defaultConfig,
      List.replicate])
    rfl

/-- C7: the document driver processes the table's columns in order,
forcing a page break before every column except the first
(independently of overflow breaks inside the sections), drawing each
column's header at the start of its section, and emitting the
finalize operation exactly once, after all columns; concretely, a
table of two one-value columns produces exactly two pages, each
holding its own header (with the matching column title) followed by
the single barcode cell. -/
theorem document_driver_pagination (cfg : Config) (N : ℕ) (enc : String → Option Img)
    (table : List (String × List String))
    (henc : ∀ v, ∃ img, enc v = some img) :
    generate_pdf_from_csv cfg enc N table =
      (List.intercalate [DrawOp.showPage] (table.map (sectionOps cfg N enc)) ++
        [DrawOp.save], none) ∧
    (generate_pdf_from_csv cfg enc N table).fst.countP isSaveOp = 1 ∧
    splitPages (generate_pdf_from_csv defaultConfig encAll 3
        [("A", ["1"]), ("B", ["2"])]).fst =
      [draw_header defaultConfig "A" ++ draw_barcode_on_pdf ⟨2, 1⟩ 40 692 "1",
       draw_header defaultConfig "B" ++ draw_barcode_on_pdf ⟨2, 1⟩ 40 692 "2"] := by
  have hrc := @runColumns_zero cfg N enc henc table
  have hgen : generate_pdf_from_csv cfg enc N table =
      (List.intercalate [DrawOp.showPage] (table.map (sectionOps cfg N enc)) ++
        [DrawOp.save], none) := by
    simp [generate_pdf_from_csv, hrc]
  refine ⟨hgen, ?_, ?_⟩
  · have hfst : (generate_pdf_from_csv cfg enc N table).fst =
        (runColumns cfg N enc table 0).fst ++ [DrawOp.save] := by
      simp [generate_pdf_from_csv, hrc]
    rw [hfst, List.countP_append, runColumns_countP_save]
    rfl
  · norm_num [generate_pdf_from_csv, runColumns, runSection, mkCell, gridY, gridX,
      nextRow, breakOps, encAll, defaultConfig, splitPages, draw_header,
      draw_barcode_on_pdf]

/-- Witness for `document_driver_pagination`: the two-column,
one-value-per-column table of the claim. -/
theorem document_driver_pagination_witness :
    generate_pdf_from_csv defaultConfig encAll 3 [("A", ["1"]), ("B", ["2"])] =
      (List.intercalate [DrawOp.showPage]
        ([("A", ["1"]), ("B", ["2"])].map (sectionOps defaultConfig 3 encAll)) ++
        [DrawOp.save], none) :=
  (document_driver_pagination defaultConfig 3 encAll [("A", ["1"]), ("B", ["2"])]
    (fun _ => ⟨⟨2, 1⟩, rfl⟩)).1

/-- C8: if the encoder rejects any cell value of the table, generation
of the whole document aborts: the result carries an `EncodingError`
naming the offending value and its column and row position, the
rejected cell gets no substitute image drawn for it, and the finalize
operation is never emitted; conversely any reported error really is a
value the encoder rejects at the reported cell. -/
theorem encoding_error_aborts (cfg : Config) (N : ℕ) (enc : String → Option Img)
    (table : List (String × List String)) :
    ((∃ p, p ∈ table ∧ ∃ v, v ∈ p.snd ∧ enc v = none) →
      ∃ e, (generate_pdf_from_csv cfg enc N table).snd = some e) ∧
    (∀ e, (generate_pdf_from_csv cfg enc N table).snd = some e →
      enc e.value = none ∧
      (∃ p, p ∈ table ∧ p.fst = e.column ∧ p.snd.get? e.index = some e.value) ∧
      DrawOp.save ∉ (generate_pdf_from_csv cfg enc N table).fst ∧
      ∀ x y w h, DrawOp.drawImage x y w h e.value ∉
        (generate_pdf_from_csv cfg enc N table).fst) := by
  constructor
  · rintro ⟨p, hp, v, hv, hen⟩
    have hs := @runColumns_err_isSome cfg N enc table 0 ⟨p, hp, v, hv, hen⟩
    cases hsnd : (runColumns cfg N enc table 0).snd with
    | none => rw [hsnd] at hs; cases hs
    | some e =>
      refine ⟨e, ?_⟩
      simp [generate_pdf_from_csv, hsnd]
  · intro e he
    have hsnd : (runColumns cfg N enc table 0).snd = some e := by
      cases hsnd' : (runColumns cfg N enc table 0).snd with
      | none => simp [generate_pdf_from_csv, hsnd'] at he
      | some e' =>
        have heq : e' = e := by
          simpa [generate_pdf_from_csv, hsnd'] using he
        rw [heq]
    have hfst : (generate_pdf_from_csv cfg enc N table).fst =
        (runColumns cfg N enc table 0).fst := by
      simp [generate_pdf_from_csv, hsnd]
    obtain ⟨h1, hctx⟩ := runColumns_err_spec table 0 hsnd
    refine ⟨h1, hctx, ?_, ?_⟩
    · rw [hfst]
      exact runColumns_no_save table 0
    · intro x y w h hm
      rw [hfst] at hm
      obtain ⟨img, him⟩ := runColumns_image_tag table 0 hm
      rw [h1] at him
      cases him

/-- Witness for `encoding_error_aborts`: a one-column table whose
single value the encoder rejects. -/
theorem encoding_error_aborts_witness :
    ∃ e, (generate_pdf_from_csv defaultConfig encBad 3 [("A", ["bad"])]).snd = some e :=
  (encoding_error_aborts defaultConfig 3 encBad [("A", ["bad"])]).1
    ⟨("A", ["bad"]), by simp, "bad", by simp, by simp [encBad]⟩
